import Mathlib

/-!
# Verification of the SLO evaluator of the Dynatrace SLO email workflow

Shallow embedding of the SLO evaluation core found in the workflow scripts
(`1_fetch_slo_data.js`, its embedded `2_build_markdown_email.js` stage, and the
near-identical variant scripts).  JavaScript numbers are modelled as rationals
(`ℚ`); a JavaScript value that may be `null`/`undefined` is modelled as an
`Option`.  All definitions are executable.
-/

namespace SloWorkflow

/-- One time-window entry of an SLO report record, as built by `sloReport`
in `1_fetch_slo_data.js`: `{ status: <evaluatedPercentage>, errorBudget: ... }`.
`status` is `none` when the upstream `evaluatedPercentage` was `null`/`undefined`. -/
structure WindowData where
  status : Option ℚ
  errorBudget : Option ℚ := none
deriving Repr, DecidableEq

/-- An SLO report record as produced by the `sloReport` mapping in
`1_fetch_slo_data.js` (fields irrelevant to the evaluator are omitted).
Each window slot is `none` when the corresponding fetch found no record
(the primary script stores `null` in that case). -/
structure SloRecord where
  id : String
  name : String
  target : ℚ
  day90 : Option WindowData := none
  day30 : Option WindowData := none
  day7 : Option WindowData := none
  current : Option WindowData := none
deriving Repr, DecidableEq

/-- Model of safeGet(obj, "status") from `2_build_markdown_email.js`:
`obj && obj[prop] !== undefined ? obj[prop] : null`. -/
def safeGet (w : Option WindowData) : Option ℚ :=
  match w with
  | none => none
  | some d => d.status

/-- Model of `isValidStatus` from `2_build_markdown_email.js`:
`(val) => val != null && val !== undefined && val >= 0`. -/
def isValidStatus (val : Option ℚ) : Bool :=
  match val with
  | none => false
  | some v => decide (0 ≤ v)

/-- Model of `getCurrent` from `2_build_markdown_email.js`: returns `slo.current` when
present, otherwise `{ status: null, errorBudget: null }`.  (The source also
falls back to a `slo.daily` field, but no record built by `sloReport` carries
one, so that branch is dead for this record type.) -/
def getCurrent (slo : SloRecord) : WindowData :=
  match slo.current with
  | some c => c
  | none => { status := none, errorBudget := none }

/-- The JS literal `0.005` (`STABLE_THRESHOLD` in `getTrend`), modelled exactly. -/
def STABLE_THRESHOLD : ℚ := 5 / 1000

/-- Model of `Math.abs`. -/
def jsAbs (q : ℚ) : ℚ :=
  if q < 0 then -q else q

/-- A single transition direction between two consecutive valid window values. -/
inductive Dir where
  | up
  | down
  | flat
deriving Repr, DecidableEq

/-- The loop body of `getTrend`: classify a difference `diff = valid[i+1] - valid[i]`.
`flats++` when `|diff| <= STABLE_THRESHOLD`, else `ups++` when `diff > 0`, else
`downs++`. -/
def classifyDiff (diff : ℚ) : Dir :=
  if jsAbs diff ≤ STABLE_THRESHOLD then Dir.flat
  else if 0 < diff then Dir.up
  else Dir.down

/-- The four candidate window values of `getTrend`, in the fixed order
`[day90.status, day30.status, day7.status, getCurrent(slo).status]`. -/
def trendValues (slo : SloRecord) : List (Option ℚ) :=
  [safeGet slo.day90, safeGet slo.day30, safeGet slo.day7, (getCurrent slo).status]

/-- Model of `values.filter(v => isValidStatus(v))` from `getTrend`, keeping the numeric
payloads of the surviving entries (order preserved). -/
def validStatuses (vals : List (Option ℚ)) : List ℚ :=
  vals.filterMap (fun v =>
    match v with
    | none => none
    | some x => if 0 ≤ x then some x else none)

/-- The list of consecutive-pair transitions computed by the `for` loop of
`getTrend` (`diff = valid[i+1] - valid[i]` for `i = 0 .. valid.length - 2`). -/
def transitionsOf (valid : List ℚ) : List Dir :=
  (valid.zip valid.tail).map (fun p => classifyDiff (p.2 - p.1))

/-- Model of `getTrend` from `2_build_markdown_email.js` (primary variant), returning the
emoji string the source returns. -/
def getTrend (slo : SloRecord) : String :=
  let valid := validStatuses (trendValues slo)
  if valid.length < 2 then "➖"
  else
    let ts := transitionsOf valid
    let ups := ts.count Dir.up
    let downs := ts.count Dir.down
    let flats := ts.count Dir.flat
    let transitions := valid.length - 1
    if flats = transitions then "➡️"
    else if downs = 0 ∧ 0 < ups then "📈"
    else if ups = 0 ∧ 0 < downs then "📉"
    else "〰️"

/-- The `failingSLOs` filter predicate of `2_build_markdown_email.js`:
`isValidStatus(status) && status < slo.target` with `status = safeGet(slo.day7, "status")`. -/
def failingPred (slo : SloRecord) : Bool :=
  match safeGet slo.day7 with
  | none => false
  | some v => decide (0 ≤ v) && decide (v < slo.target)

/-- The `passingSLOs` filter predicate of `2_build_markdown_email.js`:
`isValidStatus(status) && status >= slo.target`. -/
def passingPred (slo : SloRecord) : Bool :=
  match safeGet slo.day7 with
  | none => false
  | some v => decide (0 ≤ v) && decide (slo.target ≤ v)

/-- The `noDataSLOs` filter predicate of `2_build_markdown_email.js`:
`!isValidStatus(status)`. -/
def noDataPred (slo : SloRecord) : Bool :=
  !(isValidStatus (safeGet slo.day7))

/-- Model of `getStatusEmoji` from `2_build_markdown_email.js`:
`"➖"` when invalid, `"✅"` when `val >= target`, `"⚠️"` when
`val >= target * 0.95`, `"❌"` otherwise. -/
def getStatusEmoji (val : Option ℚ) (target : ℚ) : String :=
  match val with
  | none => "➖"
  | some v =>
    if ¬ (0 ≤ v) then "➖"
    else if target ≤ v then "✅"
    else if target * (95 / 100) ≤ v then "⚠️"
    else "❌"

/-- Model of `a.name.localeCompare(b.name)` used by `sortWithPriority`.
String.prototype.localeCompare applies a locale-dependent collation; it is
modelled here as case-sensitive lexicographic comparison of the two character
sequences, returning -1 / 0 / 1. -/
def localeCompare (a b : String) : Int :=
  if a.data < b.data then -1 else if b.data < a.data then 1 else 0

/-- Model of `Array.prototype.indexOf`: index of the first occurrence, or -1
when the element is absent. -/
def jsIndexOf (l : List String) (x : String) : Int :=
  match l.indexOf? x with
  | some i => (i : Int)
  | none => -1

/-- The comparator passed to `slos.sort` by `sortWithPriority` when
`prioritySloIds` is non-empty (`2_build_markdown_email.js`, lines 688-700). -/
def comparePriority (prioritySloIds : List String) (a b : SloRecord) : Int :=
  let aIsPriority := prioritySloIds.contains a.id
  let bIsPriority := prioritySloIds.contains b.id
  if aIsPriority && !bIsPriority then -1
  else if !aIsPriority && bIsPriority then 1
  else if aIsPriority && bIsPriority then
    jsIndexOf prioritySloIds a.id - jsIndexOf prioritySloIds b.id
  else localeCompare a.name b.name

/-- Model of `sortWithPriority` from `2_build_markdown_email.js`.
`Array.prototype.sort` (stable per ECMA-262) with a comparator `c` is modelled
as the stable `List.mergeSort` with the relation `c a b <= 0`. -/
def sortWithPriority (prioritySloIds : List String) (slos : List SloRecord) :
    List SloRecord :=
  if prioritySloIds.length = 0 then
    slos.mergeSort (fun a b => decide (localeCompare a.name b.name ≤ 0))
  else
    slos.mergeSort (fun a b => decide (comparePriority prioritySloIds a b ≤ 0))

/-- Model of `failingSLOs` from `2_build_markdown_email.js`: filter on the
7-day predicate, then priority sort. -/
def failingSLOs (prioritySloIds : List String) (slos : List SloRecord) :
    List SloRecord :=
  sortWithPriority prioritySloIds (slos.filter failingPred)

/-- Model of `passingSLOs` from `2_build_markdown_email.js`. -/
def passingSLOs (prioritySloIds : List String) (slos : List SloRecord) :
    List SloRecord :=
  sortWithPriority prioritySloIds (slos.filter passingPred)

/-- Model of `noDataSLOs` from `2_build_markdown_email.js`. -/
def noDataSLOs (prioritySloIds : List String) (slos : List SloRecord) :
    List SloRecord :=
  sortWithPriority prioritySloIds (slos.filter noDataPred)

/-- Model of `hasBreach` from `1_fetch_slo_data.js` (lines 367-370):
`day7Status != null && day7Status >= 0 && day7Status < slo.target` over the
report, with `day7Status = slo.day7 ? slo.day7.status : null` (an undefined
status also fails the loose `!= null` check). -/
def hasBreach (slos : List SloRecord) : Bool :=
  slos.any (fun slo =>
    let day7Status :=
      match slo.day7 with
      | some d => d.status
      | none => none
    match day7Status with
    | none => false
    | some v => decide (0 ≤ v) && decide (v < slo.target))

/-- Model of `hasBreach` from the variant fetch script (`src/unnamed/part_000`,
lines 952-956): `const status = slo.current.status;
return status != null && status >= 0 && status < slo.target;` — it reads the
CURRENT window, not the 7-day window. -/
def hasBreachVariant (slos : List SloRecord) : Bool :=
  slos.any (fun slo =>
    let status := safeGet slo.current
    match status with
    | none => false
    | some v => decide (0 ≤ v) && decide (v < slo.target))

/-- The `failingSLOs` filter predicate of the variant markdown builder
(`1_fetch_slo_data.js`, lines 1254-1258), which categorizes on the current
window: `isValidStatus(status) && status < slo.target` with
`status = safeGet(getCurrent(slo), "status")`. -/
def failingPredVariant (slo : SloRecord) : Bool :=
  match (getCurrent slo).status with
  | none => false
  | some v => decide (0 ≤ v) && decide (v < slo.target)

/-- Derived category of an SLO record: one of Failing / Passing / NoData. -/
inductive Category where
  | failing
  | passing
  | noData
deriving Repr, DecidableEq

/-- Reference categorization following the words of the spec and claim C1:
NoData when the 7-day value is null or negative; Failing when the value is
valid and strictly below the target; Passing when valid and at or above it. -/
def categorizeSpec (slo : SloRecord) : Category :=
  match safeGet slo.day7 with
  | none => Category.noData
  | some v =>
    if v < 0 then Category.noData
    else if v < slo.target then Category.failing
    else Category.passing

/-- Derived trend of an SLO record. -/
inductive Trend where
  | improving
  | degrading
  | stable
  | fluctuating
  | insufficient
deriving Repr, DecidableEq

/-- Rendering of a `Trend` as the emoji the scripts print. -/
def trendEmoji : Trend → String
  | Trend.improving => "📈"
  | Trend.degrading => "📉"
  | Trend.stable => "➡️"
  | Trend.fluctuating => "〰️"
  | Trend.insufficient => "➖"

/-- STABLE_EPSILON of the spec: 0.005 percentage points. -/
def STABLE_EPSILON : ℚ := 5 / 1000

/-- Spec-side discarding of nulls and negatives, preserving relative order. -/
def specValidValues (vals : List (Option ℚ)) : List ℚ :=
  vals.filterMap (fun v => v.bind (fun x => if x < 0 then none else some x))

/-- Spec-side transition classification for a consecutive pair `(a, b)`:
flat when `|b - a| <= STABLE_EPSILON`, up when `b - a > 0`, else down. -/
def specTransition (a b : ℚ) : Dir :=
  if |b - a| ≤ STABLE_EPSILON then Dir.flat
  else if 0 < b - a then Dir.up
  else Dir.down

/-- Reference trend classifier following the words of the spec and claim C2:
take the four window values in chronological order, discard nulls/negatives,
require at least two valid values, then combine the per-pair transitions. -/
def classifyTrendSpec (slo : SloRecord) : Trend :=
  let v := specValidValues
    [safeGet slo.day90, safeGet slo.day30, safeGet slo.day7, safeGet slo.current]
  if v.length < 2 then Trend.insufficient
  else
    let ds := (v.zip v.tail).map (fun p => specTransition p.1 p.2)
    if ds.all (fun d => decide (d = Dir.flat)) then Trend.stable
    else if ds.count Dir.down = 0 ∧ 0 < ds.count Dir.up then Trend.improving
    else if ds.count Dir.up = 0 ∧ 0 < ds.count Dir.down then Trend.degrading
    else Trend.fluctuating

/-- Severity tier of a value against a target (abstracted from the display
glyphs of `getStatusEmoji`). -/
inductive Severity where
  | met
  | nearMiss
  | missed
  | unknown
deriving Repr, DecidableEq

/-- Rendering of a `Severity` as the emoji `getStatusEmoji` prints. -/
def severityEmoji : Severity → String
  | Severity.met => "✅"
  | Severity.nearMiss => "⚠️"
  | Severity.missed => "❌"
  | Severity.unknown => "➖"

/-- Reference severity tiering following the words of the spec and claim C6:
Unknown when the value is invalid; Met when `value >= target`; NearMiss when
`value < target` but `value >= target * 0.95`; Missed otherwise. -/
def severitySpec (val : Option ℚ) (target : ℚ) : Severity :=
  match val with
  | none => Severity.unknown
  | some v =>
    if v < 0 then Severity.unknown
    else if target ≤ v then Severity.met
    else if target * (95 / 100) ≤ v then Severity.nearMiss
    else Severity.missed

/-- The sort-key order described by claim C4: priority records (id listed in
`priorityIds`) precede all others; among priority records the order follows
the index of the id in `priorityIds`; among non-priority records the order is
case-sensitive lexicographic ascending by name. -/
def claimKeyLe (priorityIds : List String) (a b : SloRecord) : Bool :=
  if a.id ∈ priorityIds then
    if b.id ∈ priorityIds then
      decide (jsIndexOf priorityIds a.id ≤ jsIndexOf priorityIds b.id)
    else true
  else
    if b.id ∈ priorityIds then false
    else decide (a.name.data ≤ b.name.data)

/-- An upstream SLO status record as returned by the platform API, restricted
to the fields `sloReport` reads. `target` is `none` when the field is absent. -/
structure ApiSlo where
  id : String
  name : String
  target : Option ℚ := none
  evaluatedPercentage : Option ℚ := none
  errorBudget : Option ℚ := none
deriving Repr, DecidableEq

/-- Model of `baseSlo.target || 0` in `sloReport`: a missing target — or a
falsy (zero) one — defaults to 0. -/
def jsTargetOrZero (t : Option ℚ) : ℚ :=
  match t with
  | none => 0
  | some x => if x = 0 then 0 else x

/-- The per-period fetch results consumed by `sloReport`. -/
structure FetchResults where
  day90 : List ApiSlo := []
  day30 : List ApiSlo := []
  day7 : List ApiSlo := []
  current : List ApiSlo := []
deriving Repr

/-- Model of `results.<period>.find(s => s.id === id)`. -/
def findSlo (l : List ApiSlo) (id : String) : Option ApiSlo :=
  l.find? (fun s => s.id == id)

/-- Model of `const baseSlo = sloCurrent || slo7 || slo30 || slo90` in
`sloReport`. -/
def baseSloOf (results : FetchResults) (id : String) : Option ApiSlo :=
  (findSlo results.current id).orElse fun _ =>
    (findSlo results.day7 id).orElse fun _ =>
      (findSlo results.day30 id).orElse fun _ =>
        findSlo results.day90 id

/-- Model of the window entry built by `sloReport`:
`sloX ? { status: sloX.evaluatedPercentage, errorBudget: sloX.errorBudget } : null`. -/
def windowOf (s : Option ApiSlo) : Option WindowData :=
  s.map (fun x => { status := x.evaluatedPercentage, errorBudget := x.errorBudget })

/-- Model of one element of the `sloReport` mapping in `1_fetch_slo_data.js`
(lines 171-198); the user-action and synthetic fields are omitted. -/
def buildRecord (results : FetchResults) (id : String) : SloRecord :=
  let baseSlo := baseSloOf results id
  { id := id
    name :=
      match baseSlo with
      | some b => b.name
      | none => "Unknown SLO"
    target :=
      match baseSlo with
      | some b => jsTargetOrZero b.target
      | none => 0
    day90 := windowOf (findSlo results.day90 id)
    day30 := windowOf (findSlo results.day30 id)
    day7 := windowOf (findSlo results.day7 id)
    current := windowOf (findSlo results.current id) }

/-- Model of the `sloReport` array of `1_fetch_slo_data.js`. -/
def sloReport (results : FetchResults) (sloIds : List String) : List SloRecord :=
  sloIds.map (buildRecord results)

/-- A heap of JavaScript array objects holding SLO records; an array reference
is an index into the heap. Used to express the in-place behaviour of
`Array.prototype.sort`. -/
structure ArrayHeap where
  cells : List (List SloRecord)
deriving Repr, DecidableEq

/-- Contents of the array referenced by `r`. -/
def ArrayHeap.read (h : ArrayHeap) (r : Nat) : List SloRecord :=
  h.cells.getD r []

/-- Replace the contents of the array referenced by `r`. -/
def ArrayHeap.write (h : ArrayHeap) (r : Nat) (v : List SloRecord) : ArrayHeap :=
  ⟨h.cells.set r v⟩

/-- Model of a call `arr.sort(cmp)` on the array referenced by `r`, per the
ECMA-262 semantics of `Array.prototype.sort`: the elements of the receiver are
replaced in place by their (stable-)sorted order and the receiver reference
itself is the return value. -/
def jsSortCall (le : SloRecord → SloRecord → Bool) (h : ArrayHeap) (r : Nat) :
    ArrayHeap × Nat :=
  (h.write r ((h.read r).mergeSort le), r)

/-- Model of a call `sortWithPriority(slos)` where `slos` is the array
referenced by `r`: both branches of the source invoke `slos.sort(...)` on the
argument array and return its result. -/
def sortWithPriorityCall (prioritySloIds : List String) (h : ArrayHeap)
    (r : Nat) : ArrayHeap × Nat :=
  if prioritySloIds.length = 0 then
    jsSortCall (fun a b => decide (localeCompare a.name b.name ≤ 0)) h r
  else
    jsSortCall (fun a b => decide (comparePriority prioritySloIds a b ≤ 0)) h r

/-- Example record of claim C4: id "a", name "Zebra". -/
def rZebra : SloRecord := { id := "a", name := "Zebra", target := 0 }

/-- Example record of claim C4: id "b", name "Apple". -/
def rApple : SloRecord := { id := "b", name := "Apple", target := 0 }

/-- Example record of claim C4: id "c", name "Mango". -/
def rMango : SloRecord := { id := "c", name := "Mango", target := 0 }

/-- Example record of claim C5: windows [90, 95, 85, 98] (mixed direction). -/
def rFluct : SloRecord :=
  { id := "fluct", name := "Fluct", target := 99
    day90 := some { status := some 90 }
    day30 := some { status := some 95 }
    day7 := some { status := some 85 }
    current := some { status := some 98 } }

/-- Example record whose 7-day value equals its target exactly. -/
def rBoundary : SloRecord :=
  { id := "bd", name := "Boundary", target := 99
    day7 := some { status := some 99 } }

/-- Example record of claim C3: 7-day value valid and below target,
current-window value missing. -/
def rBreach7 : SloRecord :=
  { id := "x", name := "X", target := 99
    day7 := some { status := some 50 } }

/-- Example upstream record with a missing target (claim C9). -/
def apiNoTarget : ApiSlo :=
  { id := "s", name := "S", target := none, evaluatedPercentage := some 50 }

/-- Example fetch results containing only a 7-day record with missing target. -/
def resultsNoTarget : FetchResults := { day7 := [apiNoTarget] }

/-- Example heap with a single array holding two records out of name order. -/
def heapZA : ArrayHeap := ⟨[[rZebra, rApple]]⟩

/-! ## Shared lemmas -/

/-- Reading the status of the current window through `getCurrent` is the same
as `safeGet` on the current slot. -/
theorem getCurrent_status (slo : SloRecord) :
    (getCurrent slo).status = safeGet slo.current := by
  cases h : slo.current <;> simp [getCurrent, safeGet, h]

/-- `jsAbs` agrees with the mathematical absolute value. -/
theorem jsAbs_eq_abs (q : ℚ) : jsAbs q = |q| := by
  rcases lt_or_le q 0 with h | h
  · rw [jsAbs, if_pos h, abs_of_neg h]
  · rw [jsAbs, if_neg (not_lt.mpr h), abs_of_nonneg h]

/-! ## C1: categorization on the 7-day window -/

/-- C1. Categorization on the 7-day evaluation window yields exactly one of
Failing / Passing / NoData: the three filter predicates of the renderer agree
with the reference `categorizeSpec` (NoData when the value is null or
negative, Failing when valid and strictly below target, Passing when valid
and at or above target); in particular a value exactly equal to the target is
Passing, not Failing. -/
theorem categorize_agrees_with_spec (slo : SloRecord) :
    (failingPred slo = true ↔ categorizeSpec slo = Category.failing)
    ∧ (passingPred slo = true ↔ categorizeSpec slo = Category.passing)
    ∧ (noDataPred slo = true ↔ categorizeSpec slo = Category.noData)
    ∧ (safeGet slo.day7 = some slo.target → 0 ≤ slo.target →
        passingPred slo = true ∧ failingPred slo = false) := by
  rcases h : safeGet slo.day7 with _ | v
  · simp [failingPred, passingPred, noDataPred, categorizeSpec, isValidStatus, h]
  · by_cases hneg : v < 0
    · have h0 : ¬ (0 ≤ v) := not_le.mpr hneg
      refine ⟨?_, ?_, ?_, ?_⟩
      · simp [failingPred, h, h0, categorizeSpec, hneg]
      · simp [passingPred, h, h0, categorizeSpec, hneg]
      · simp [noDataPred, isValidStatus, h, h0, categorizeSpec, hneg]
      · intro hv ht
        injection hv with hv
        exact absurd (hv ▸ ht) h0
    · have h0 : 0 ≤ v := not_lt.mp hneg
      by_cases hlt : v < slo.target
      · have hnge : ¬ (slo.target ≤ v) := not_le.mpr hlt
        refine ⟨?_, ?_, ?_, ?_⟩
        · simp [failingPred, h, h0, hlt, categorizeSpec, hneg]
        · simp [passingPred, h, hnge, categorizeSpec, hneg, hlt]
        · simp [noDataPred, isValidStatus, h, h0, categorizeSpec, hneg, hlt]
        · intro hv
          injection hv with hv
          exact absurd hlt (by rw [hv]; exact lt_irrefl _)
      · have hge : slo.target ≤ v := not_lt.mp hlt
        refine ⟨?_, ?_, ?_, ?_⟩
        · simp [failingPred, h, hlt, categorizeSpec, hneg]
        · simp [passingPred, h, h0, hge, categorizeSpec, hneg, hlt]
        · simp [noDataPred, isValidStatus, h, h0, categorizeSpec, hneg, hlt]
        · exact fun _ _ => ⟨by simp [passingPred, h, h0, hge], by simp [failingPred, h, hlt]⟩

/-- C1 witness: at a record whose 7-day value equals its target exactly, the
theorem instantiates and the boundary clause puts the record in Passing. -/
theorem categorize_agrees_with_spec_witness :
    (failingPred rBoundary = true ↔ categorizeSpec rBoundary = Category.failing)
    ∧ (passingPred rBoundary = true ∧ failingPred rBoundary = false) := by
  have h := categorize_agrees_with_spec rBoundary
  refine ⟨h.1, h.2.2.2 ?_ ?_⟩
  · norm_num [safeGet, rBoundary]
  · norm_num [rBoundary]

/-! ## C6: severity tiering -/

/-- C6. The status-emoji function realizes the severity tiering: Unknown when
the value is invalid, Met when `value >= target`, NearMiss when the value is
below target but at least `target * 0.95`, Missed otherwise; and the renderer
categorization uses only the strict `>= target` / `< target` boundary. -/
theorem statusEmoji_severity (val : Option ℚ) (target : ℚ) (slo : SloRecord) :
    getStatusEmoji val target = severityEmoji (severitySpec val target)
    ∧ (severitySpec val target = Severity.unknown ↔ isValidStatus val = false)
    ∧ (severitySpec val target = Severity.met ↔
        ∃ v, val = some v ∧ 0 ≤ v ∧ target ≤ v)
    ∧ (severitySpec val target = Severity.nearMiss ↔
        ∃ v, val = some v ∧ 0 ≤ v ∧ v < target ∧ target * (95 / 100) ≤ v)
    ∧ (severitySpec val target = Severity.missed ↔
        ∃ v, val = some v ∧ 0 ≤ v ∧ v < target * (95 / 100))
    ∧ (passingPred slo = true ↔
        ∃ v, safeGet slo.day7 = some v ∧ 0 ≤ v ∧ slo.target ≤ v)
    ∧ (failingPred slo = true ↔
        ∃ v, safeGet slo.day7 = some v ∧ 0 ≤ v ∧ v < slo.target) := by
  have hpass : passingPred slo = true ↔
      ∃ v, safeGet slo.day7 = some v ∧ 0 ≤ v ∧ slo.target ≤ v := by
    rcases h : safeGet slo.day7 with _ | v <;> simp [passingPred, h]
  have hfail : failingPred slo = true ↔
      ∃ v, safeGet slo.day7 = some v ∧ 0 ≤ v ∧ v < slo.target := by
    rcases h : safeGet slo.day7 with _ | v <;> simp [failingPred, h]
  rcases val with _ | v
  · exact ⟨rfl, by simp [severitySpec, isValidStatus], by simp [severitySpec],
      by simp [severitySpec], by simp [severitySpec], hpass, hfail⟩
  · by_cases hneg : v < 0
    · have h0 : ¬ (0 ≤ v) := not_le.mpr hneg
      refine ⟨?_, ?_, ?_, ?_, ?_, hpass, hfail⟩
      · simp [getStatusEmoji, severitySpec, severityEmoji, hneg, h0]
      · simp [severitySpec, isValidStatus, hneg, h0]
      · simp [severitySpec, hneg, h0]
      · simp [severitySpec, hneg, h0]
      · simp [severitySpec, hneg, h0]
    · have h0 : 0 ≤ v := not_lt.mp hneg
      by_cases hmet : target ≤ v
      · have hnlt : ¬ (v < target) := not_lt.mpr hmet
        have hnmiss : ¬ (v < target * (95 / 100)) := by
          intro hcon
          linarith
        refine ⟨?_, ?_, ?_, ?_, ?_, hpass, hfail⟩
        · simp [getStatusEmoji, severitySpec, severityEmoji, hneg, h0, hmet]
        · simp [severitySpec, isValidStatus, hneg, h0, hmet]
        · exact ⟨fun _ => ⟨v, rfl, h0, hmet⟩, fun _ => by simp [severitySpec, hneg, hmet]⟩
        · simp [severitySpec, hneg, hmet, hnlt]
        · simp [severitySpec, hneg, hmet, hnmiss]
      · have hlt : v < target := not_le.mp hmet
        by_cases hnear : target * (95 / 100) ≤ v
        · have hnmiss : ¬ (v < target * (95 / 100)) := not_lt.mpr hnear
          refine ⟨?_, ?_, ?_, ?_, ?_, hpass, hfail⟩
          · simp [getStatusEmoji, severitySpec, severityEmoji, hneg, h0, hmet, hnear]
          · simp [severitySpec, isValidStatus, hneg, h0, hmet, hnear]
          · simp [severitySpec, hneg, hmet, hnear]
          · exact ⟨fun _ => ⟨v, rfl, h0, hlt, hnear⟩,
              fun _ => by simp [severitySpec, hneg, hmet, hnear]⟩
          · simp [severitySpec, hneg, hmet, hnear, hnmiss]
        · have hmiss : v < target * (95 / 100) := not_le.mp hnear
          refine ⟨?_, ?_, ?_, ?_, ?_, hpass, hfail⟩
          · simp [getStatusEmoji, severitySpec, severityEmoji, hneg, h0, hmet, hnear]
          · simp [severitySpec, isValidStatus, hneg, h0, hmet, hnear]
          · simp [severitySpec, hneg, hmet, hnear]
          · simp [severitySpec, hneg, hmet, hnear]
          · exact ⟨fun _ => ⟨v, rfl, h0, hmiss⟩,
              fun _ => by simp [severitySpec, hneg, hmet, hnear]⟩

/-! ## Trend lemmas -/

/-- The discard step of the spec agrees with the filter step of the code. -/
theorem specValidValues_eq (vals : List (Option ℚ)) :
    specValidValues vals = validStatuses vals := by
  unfold specValidValues validStatuses
  congr 1
  funext v
  cases v with
  | none => rfl
  | some x =>
    show (if x < 0 then none else some x) = (if 0 ≤ x then some x else none)
    rcases lt_or_le x 0 with h | h
    · rw [if_pos h, if_neg (not_le.mpr h)]
    · rw [if_neg (not_lt.mpr h), if_pos h]

/-- The spec transition classifier agrees with the loop body of the code. -/
theorem specTransition_eq (a b : ℚ) : specTransition a b = classifyDiff (b - a) := by
  unfold specTransition classifyDiff
  rw [jsAbs_eq_abs]
  rfl

/-- There are `length - 1` consecutive-pair transitions. -/
theorem transitionsOf_length (l : List ℚ) :
    (transitionsOf l).length = l.length - 1 := by
  unfold transitionsOf
  rw [List.length_map, List.length_zip, List.length_tail]
  omega

/-- Every transition is up, down or flat, so the three counters sum to the
number of transitions. -/
theorem count_dir_sum (l : List Dir) :
    l.count Dir.up + l.count Dir.down + l.count Dir.flat = l.length := by
  induction l with
  | nil => rfl
  | cons d t ih => cases d <;> simp [List.count_cons] <;> omega

/-- The spec transition list agrees with the code transition list. -/
theorem specTransitions_eq (l : List ℚ) :
    (l.zip l.tail).map (fun p => specTransition p.1 p.2) = transitionsOf l := by
  unfold transitionsOf
  exact List.map_congr_left (fun p _ => specTransition_eq p.1 p.2)

/-! ## C2: the trend classifier refines the spec -/

/-- C2. `getTrend` computes exactly the reference trend classification: the
four window values are taken in chronological order, nulls and negatives are
discarded (order preserved), fewer than two survivors give Insufficient, and
otherwise the per-pair transitions (flat when within epsilon, else up or
down) decide Stable / Improving / Degrading / Fluctuating. -/
theorem getTrend_eq_spec (slo : SloRecord) :
    getTrend slo = trendEmoji (classifyTrendSpec slo) := by
  have hlist : specValidValues
      [safeGet slo.day90, safeGet slo.day30, safeGet slo.day7, safeGet slo.current]
      = validStatuses (trendValues slo) := by
    rw [specValidValues_eq]
    simp only [trendValues, getCurrent_status]
  simp only [getTrend, classifyTrendSpec, hlist, specTransitions_eq]
  set valid := validStatuses (trendValues slo) with hvalid
  set ts := transitionsOf valid with hts
  rcases Nat.lt_or_ge valid.length 2 with h2 | h2
  · rw [if_pos h2, if_pos h2]
    rfl
  · have h2n : ¬ (valid.length < 2) := not_lt.mpr h2
    rw [if_neg h2n, if_neg h2n]
    have hcond : (ts.all (fun d => decide (d = Dir.flat)) = true)
        ↔ (ts.count Dir.flat = valid.length - 1) := by
      rw [List.all_eq_true]
      rw [← transitionsOf_length valid, ← hts]
      constructor
      · intro h
        exact List.count_eq_length.mpr fun b hb => ((decide_eq_true_eq).mp (h b hb)).symm
      · intro h b hb
        exact decide_eq_true ((List.count_eq_length.mp h b hb).symm)
    simp only [hcond]
    split_ifs <;> rfl

/-! ## C5: mixed directions give Fluctuating -/

/-- C5. Whenever the transition list of a record contains at least one up and
at least one down transition, `getTrend` returns the Fluctuating emoji — and
in particular neither the Stable nor the Improving one. -/
theorem trend_fluctuating (slo : SloRecord)
    (hup : Dir.up ∈ transitionsOf (validStatuses (trendValues slo)))
    (hdown : Dir.down ∈ transitionsOf (validStatuses (trendValues slo))) :
    getTrend slo = "〰️" ∧ getTrend slo ≠ "➡️" ∧ getTrend slo ≠ "📈" := by
  set valid := validStatuses (trendValues slo) with hvalid
  set ts := transitionsOf valid with hts
  have hlen : ts.length = valid.length - 1 := transitionsOf_length valid
  have hlen2 : ¬ (valid.length < 2) := by
    intro hcon
    have h0 : ts.length = 0 := by omega
    rw [List.length_eq_zero] at h0
    rw [h0] at hup
    exact absurd hup (List.not_mem_nil _)
  have hupc : 0 < ts.count Dir.up := List.count_pos_iff.mpr hup
  have hdc : 0 < ts.count Dir.down := List.count_pos_iff.mpr hdown
  have hflat : ¬ (ts.count Dir.flat = valid.length - 1) := by
    intro hcon
    rw [← hlen] at hcon
    have hall := List.count_eq_length.mp hcon Dir.up hup
    cases hall
  have hA : ¬ (ts.count Dir.down = 0 ∧ 0 < ts.count Dir.up) := by
    rintro ⟨h, -⟩
    omega
  have hB : ¬ (ts.count Dir.up = 0 ∧ 0 < ts.count Dir.down) := by
    rintro ⟨h, -⟩
    omega
  have hmain : getTrend slo = "〰️" := by
    simp only [getTrend, ← hvalid, ← hts]
    rw [if_neg hlen2, if_neg hflat, if_neg hA, if_neg hB]
  exact ⟨hmain, by rw [hmain]; decide, by rw [hmain]; decide⟩

/-- C5 witness: the record with windows [90, 95, 85, 98] has both an up and a
down transition, and its trend is the Fluctuating emoji. -/
theorem trend_fluctuating_witness :
    Dir.up ∈ transitionsOf (validStatuses (trendValues rFluct))
    ∧ Dir.down ∈ transitionsOf (validStatuses (trendValues rFluct))
    ∧ getTrend rFluct = "〰️" := by
  have hl : transitionsOf (validStatuses (trendValues rFluct))
      = [Dir.up, Dir.down, Dir.up] := by
    norm_num [transitionsOf, validStatuses, trendValues, classifyDiff, jsAbs,
      STABLE_THRESHOLD, rFluct, safeGet, getCurrent, List.filterMap_cons]
  have hup : Dir.up ∈ transitionsOf (validStatuses (trendValues rFluct)) := by
    rw [hl]
    simp
  have hdown : Dir.down ∈ transitionsOf (validStatuses (trendValues rFluct)) := by
    rw [hl]
    simp
  exact ⟨hup, hdown, (trend_fluctuating rFluct hup hdown).1⟩

/-! ## Sorting lemmas -/

/-- A localeCompare result is nonpositive exactly when the first name is
lexicographically at most the second. -/
theorem localeCompare_le_iff (a b : String) :
    localeCompare a b ≤ 0 ↔ a.data ≤ b.data := by
  unfold localeCompare
  rcases lt_trichotomy a.data b.data with h | h | h
  · rw [if_pos h]
    exact ⟨fun _ => le_of_lt h, fun _ => by norm_num⟩
  · rw [if_neg (by rw [h]; exact lt_irrefl _), if_neg (by rw [h]; exact lt_irrefl _)]
    exact ⟨fun _ => le_of_eq h, fun _ => le_refl 0⟩
  · rw [if_neg (asymm h), if_pos h]
    exact ⟨fun hcon => absurd hcon (by norm_num), fun hcon => absurd hcon (not_le.mpr h)⟩

/-- The comparator of `sortWithPriority` is nonpositive exactly when the
claim-side key order holds. -/
theorem comparePriority_le_iff (pids : List String) (a b : SloRecord) :
    decide (comparePriority pids a b ≤ 0) = claimKeyLe pids a b := by
  unfold comparePriority claimKeyLe
  by_cases ha : a.id ∈ pids <;> by_cases hb : b.id ∈ pids <;>
    simp only [List.elem_eq_mem, ha, hb, decide_True, decide_False,
      eq_self_iff_true, iff_true, iff_false, decide_eq_true_eq,
      Bool.true_and, Bool.false_and, Bool.and_true, Bool.and_false,
      Bool.not_true, Bool.not_false, ite_true, ite_false, if_true, if_false]
  · rw [decide_eq_decide]
    exact sub_nonpos
  · simp
  · simp
  · rw [decide_eq_decide]
    exact localeCompare_le_iff a.name b.name

/-- `sortWithPriority` is the stable merge sort by the claim-side key order
(both source branches produce the same comparator relation). -/
theorem sortWithPriority_eq (pids : List String) (slos : List SloRecord) :
    sortWithPriority pids slos = slos.mergeSort (claimKeyLe pids) := by
  unfold sortWithPriority
  by_cases h : pids.length = 0
  · rw [if_pos h]
    have hnil : pids = [] := List.length_eq_zero.mp h
    subst hnil
    congr 1
    funext a b
    show decide (localeCompare a.name b.name ≤ 0) = claimKeyLe [] a b
    unfold claimKeyLe
    simp only [List.not_mem_nil, ite_false, if_false]
    rw [decide_eq_decide]
    exact localeCompare_le_iff a.name b.name
  · rw [if_neg h]
    congr 1
    funext a b
    exact comparePriority_le_iff pids a b

/-- The claim-side key order is total. -/
theorem claimKeyLe_total (pids : List String) (a b : SloRecord) :
    claimKeyLe pids a b || claimKeyLe pids b a := by
  unfold claimKeyLe
  by_cases ha : a.id ∈ pids <;> by_cases hb : b.id ∈ pids <;>
    simp [ha, hb, le_total]

/-- The claim-side key order is transitive. -/
theorem claimKeyLe_trans (pids : List String) (a b c : SloRecord)
    (hab : claimKeyLe pids a b) (hbc : claimKeyLe pids b c) :
    claimKeyLe pids a c := by
  unfold claimKeyLe at *
  by_cases ha : a.id ∈ pids <;> by_cases hb : b.id ∈ pids <;>
    by_cases hc : c.id ∈ pids <;>
    simp [ha, hb, hc] at hab hbc ⊢ <;>
    exact le_trans hab hbc

/-- `sortWithPriority` permutes its input. -/
theorem sortWithPriority_perm (pids : List String) (slos : List SloRecord) :
    (sortWithPriority pids slos).Perm slos := by
  rw [sortWithPriority_eq]
  exact List.mergeSort_perm slos _

/-! ## C4: the priority sort -/

/-- C4. `sortWithPriority` is the stable sort by the key order of the claim:
priority records first (ordered by the index of their id in `priorityIds`),
then the rest in case-sensitive lexicographic ascending name order; the output
is a permutation of the input, pairwise ordered by that key; and on the
claim's example (priorityIds = [b, a]; records a:Zebra, b:Apple, c:Mango) it
returns [b, a, c]. -/
theorem sortWithPriority_spec (pids : List String) (slos : List SloRecord) :
    sortWithPriority pids slos = slos.mergeSort (claimKeyLe pids)
    ∧ (sortWithPriority pids slos).Perm slos
    ∧ (sortWithPriority pids slos).Pairwise (fun a b => claimKeyLe pids a b = true)
    ∧ sortWithPriority ["b", "a"] [rZebra, rApple, rMango]
      = [rApple, rZebra, rMango] := by
  refine ⟨sortWithPriority_eq pids slos, sortWithPriority_perm pids slos, ?_, ?_⟩
  · rw [sortWithPriority_eq]
    exact List.sorted_mergeSort (claimKeyLe_trans pids) (claimKeyLe_total pids) slos
  · simp +decide [sortWithPriority, List.mergeSort, List.splitInTwo, List.merge,
      comparePriority, localeCompare, jsIndexOf, rZebra, rApple, rMango]

/-! ## C7: idempotence of the priority sort -/

/-- C7. Applying `sortWithPriority` to its own output is a no-op: the output
is already sorted by the key order and the sort is stable. -/
theorem sortWithPriority_idempotent (pids : List String) (slos : List SloRecord) :
    sortWithPriority pids (sortWithPriority pids slos) = sortWithPriority pids slos := by
  rw [sortWithPriority_eq, sortWithPriority_eq]
  exact List.mergeSort_of_sorted
    (List.sorted_mergeSort (claimKeyLe_trans pids) (claimKeyLe_total pids) slos)

/-! ## C3: the breach flag -/

/-- C3 counterexample. A record whose 7-day value is valid and strictly below
its target (so the Failing category of the renderer is non-empty and the claim
asserts the emitted breach flag must be true) — yet the variant fetch script
(`src/unnamed/part_000`) emits `hasBreach = false`, because it reads the
current window, which here has no data. -/
theorem hasBreach_variant_counterexample :
    failingPred rBreach7 = true
    ∧ hasBreach [rBreach7] = true
    ∧ hasBreachVariant [rBreach7] = false := by
  refine ⟨?_, ?_, ?_⟩
  · norm_num [failingPred, rBreach7, safeGet]
  · norm_num [hasBreach, rBreach7, List.any_cons]
  · norm_num [hasBreachVariant, rBreach7, safeGet, List.any_cons]

/-- C3 (amended). In `1_fetch_slo_data.js` the emitted `hasBreach` is true iff
some record's 7-day value is valid and strictly below its target — equivalently
iff the renderer's Failing category is non-empty; in the variant fetch script
`hasBreach` is instead computed from the current-window value, matching the
variant renderer's current-window Failing category. -/
theorem hasBreach_characterization (pids : List String) (slos : List SloRecord) :
    (hasBreach slos = true ↔ ∃ slo ∈ slos, failingPred slo = true)
    ∧ (hasBreach slos = true ↔ failingSLOs pids slos ≠ [])
    ∧ (hasBreachVariant slos = true ↔ ∃ slo ∈ slos, failingPredVariant slo = true)
    ∧ (hasBreachVariant slos = true ↔ slos.filter failingPredVariant ≠ []) := by
  have h1 : hasBreach slos = slos.any failingPred := by
    unfold hasBreach
    congr 1
    funext slo
    cases hd : slo.day7 <;> simp [failingPred, safeGet, hd]
  have h2 : hasBreachVariant slos = slos.any failingPredVariant := by
    unfold hasBreachVariant
    congr 1
    funext slo
    rw [failingPredVariant, getCurrent_status]
  have hfilter : ∀ (p : SloRecord → Bool) (l : List SloRecord),
      l.filter p ≠ [] ↔ ∃ x ∈ l, p x = true := by
    intro p l
    rw [ne_eq, List.filter_eq_nil_iff]
    push_neg
    simp
  refine ⟨?_, ?_, ?_, ?_⟩
  · rw [h1, List.any_eq_true]
  · rw [h1, List.any_eq_true]
    have hsort : failingSLOs pids slos = [] ↔ slos.filter failingPred = [] := by
      constructor
      · intro h
        have hp : (failingSLOs pids slos).Perm (slos.filter failingPred) :=
          sortWithPriority_perm pids (slos.filter failingPred)
        rw [h] at hp
        exact (hp.symm).eq_nil
      · intro h
        unfold failingSLOs
        rw [h, sortWithPriority_eq]
        exact List.mergeSort_nil
    rw [ne_eq, hsort, ← ne_eq, hfilter]
  · rw [h2, List.any_eq_true]
  · rw [h2, List.any_eq_true, hfilter]

/-! ## C8: totality of the evaluator -/

/-- C8. The evaluator operations are total over well-formed input: the trend
is always one of the five emojis, every record falls in exactly one of the
three categories, the status emoji is always one of the four glyphs, and the
priority sort always returns a permutation of its input (this covers missing
windows, negative values, zero targets, empty priority lists and singleton
inputs, since all are values of the model types). -/
theorem evaluator_total (slo : SloRecord) (val : Option ℚ) (target : ℚ)
    (pids : List String) (slos : List SloRecord) :
    (getTrend slo = "➖" ∨ getTrend slo = "➡️" ∨ getTrend slo = "📈"
      ∨ getTrend slo = "📉" ∨ getTrend slo = "〰️")
    ∧ ((failingPred slo = true ∧ passingPred slo = false ∧ noDataPred slo = false)
      ∨ (failingPred slo = false ∧ passingPred slo = true ∧ noDataPred slo = false)
      ∨ (failingPred slo = false ∧ passingPred slo = false ∧ noDataPred slo = true))
    ∧ (getStatusEmoji val target = "➖" ∨ getStatusEmoji val target = "✅"
      ∨ getStatusEmoji val target = "⚠️" ∨ getStatusEmoji val target = "❌")
    ∧ (sortWithPriority pids slos).Perm slos := by
  refine ⟨?_, ?_, ?_, sortWithPriority_perm pids slos⟩
  · simp only [getTrend]
    split_ifs <;> simp
  · rcases h : safeGet slo.day7 with _ | v
    · right; right
      simp [failingPred, passingPred, noDataPred, isValidStatus, h]
    · by_cases h0 : 0 ≤ v
      · by_cases hlt : v < slo.target
        · left
          simp [failingPred, passingPred, noDataPred, isValidStatus, h, h0, hlt,
            not_le.mpr hlt]
        · right; left
          simp [failingPred, passingPred, noDataPred, isValidStatus, h, h0, hlt,
            not_lt.mp hlt]
      · right; right
        simp [failingPred, passingPred, noDataPred, isValidStatus, h, h0]
  · rcases val with _ | v
    · simp [getStatusEmoji]
    · simp only [getStatusEmoji]
      split_ifs <;> simp

/-! ## C9: missing targets default to zero -/

/-- C9. When the base upstream record has no target (or a falsy zero one) —
or no upstream record was found at all — the constructed report record gets
target 0, and consequently any valid 7-day value puts the record in Passing. -/
theorem missing_target_defaults (results : FetchResults) (id : String) (v : ℚ)
    (hmiss : baseSloOf results id = none
      ∨ ∃ b, baseSloOf results id = some b ∧ (b.target = none ∨ b.target = some 0)) :
    (buildRecord results id).target = 0
    ∧ (safeGet (buildRecord results id).day7 = some v → 0 ≤ v →
        passingPred (buildRecord results id) = true
        ∧ failingPred (buildRecord results id) = false
        ∧ categorizeSpec (buildRecord results id) = Category.passing) := by
  have htgt : (buildRecord results id).target = 0 := by
    unfold buildRecord
    rcases hmiss with h | ⟨b, hb, ht⟩
    · simp [h]
    · rcases ht with ht | ht <;> simp [hb, jsTargetOrZero, ht]
  refine ⟨htgt, fun hv h0 => ?_⟩
  have hnn : ¬ (v < 0) := not_lt.mpr h0
  refine ⟨?_, ?_, ?_⟩
  · simp [passingPred, hv, h0, htgt]
  · simp [failingPred, hv, htgt, hnn]
  · simp [categorizeSpec, hv, htgt, hnn]

/-- C9 witness: concrete fetch results whose only upstream record has a
missing target and a valid 7-day value of 50; the built record has target 0
and is Passing. -/
theorem missing_target_defaults_witness :
    (∃ b, baseSloOf resultsNoTarget "s" = some b
      ∧ (b.target = none ∨ b.target = some 0))
    ∧ safeGet (buildRecord resultsNoTarget "s").day7 = some 50
    ∧ (buildRecord resultsNoTarget "s").target = 0
    ∧ passingPred (buildRecord resultsNoTarget "s") = true := by
  have hbase : baseSloOf resultsNoTarget "s" = some apiNoTarget := by
    norm_num [baseSloOf, resultsNoTarget, findSlo, apiNoTarget, List.find?]
  have hmiss : baseSloOf resultsNoTarget "s" = none
      ∨ ∃ b, baseSloOf resultsNoTarget "s" = some b
        ∧ (b.target = none ∨ b.target = some 0) :=
    Or.inr ⟨apiNoTarget, hbase, Or.inl rfl⟩
  have hv : safeGet (buildRecord resultsNoTarget "s").day7 = some 50 := by
    norm_num [buildRecord, resultsNoTarget, baseSloOf, findSlo, apiNoTarget,
      safeGet, windowOf, List.find?]
  have h := missing_target_defaults resultsNoTarget "s" 50 hmiss
  exact ⟨⟨apiNoTarget, hbase, Or.inl rfl⟩, hv, h.1, (h.2 hv (by norm_num)).1⟩

/-! ## C10: the sort mutates its argument array in place -/

/-- C10. `sortWithPriority` sorts the referenced array in place and returns
the very same reference: the returned reference equals the argument, the
referenced cell now holds the sorted contents, every other cell is untouched,
and on a concrete out-of-order array the heap really changes (the input is
not left unchanged) — including when `priorityIds` is empty. -/
theorem sortWithPriority_in_place (pids : List String) (h : ArrayHeap) (r : Nat) :
    (sortWithPriorityCall pids h r).2 = r
    ∧ ((sortWithPriorityCall pids h r).1).read r = sortWithPriority pids (h.read r)
    ∧ (∀ q : Nat, q ≠ r → ((sortWithPriorityCall pids h r).1).read q = h.read q)
    ∧ (sortWithPriorityCall [] heapZA 0).1 ≠ heapZA := by
  have hcall : ∀ (le : SloRecord → SloRecord → Bool),
      (jsSortCall le h r).1.read r = (h.read r).mergeSort le := by
    intro le
    unfold jsSortCall ArrayHeap.read ArrayHeap.write
    by_cases hr : r < h.cells.length
    · simp [List.getD_eq_getElem?_getD, List.getElem?_set_self hr]
    · rw [List.set_eq_of_length_le (le_of_not_lt hr)]
      show h.cells.getD r [] = (h.cells.getD r []).mergeSort le
      have hga : h.cells.getD r [] = [] := by
        rw [List.getD_eq_getElem?_getD, List.getElem?_eq_none (le_of_not_lt hr)]
        rfl
      rw [hga]
      exact List.mergeSort_nil.symm
  have hframe : ∀ (le : SloRecord → SloRecord → Bool) (q : Nat), q ≠ r →
      (jsSortCall le h r).1.read q = h.read q := by
    intro le q hq
    unfold jsSortCall ArrayHeap.read ArrayHeap.write
    simp [List.getD_eq_getElem?_getD, List.getElem?_set_ne (Ne.symm hq)]
  refine ⟨?_, ?_, ?_, ?_⟩
  · unfold sortWithPriorityCall
    split_ifs <;> rfl
  · unfold sortWithPriorityCall sortWithPriority
    split_ifs with hlen
    · exact hcall _
    · exact hcall _
  · intro q hq
    unfold sortWithPriorityCall
    split_ifs <;> exact hframe _ q hq
  · have hsorted : (sortWithPriorityCall [] heapZA 0).1 = ⟨[[rApple, rZebra]]⟩ := by
      simp +decide [sortWithPriorityCall, jsSortCall, heapZA, ArrayHeap.read,
        ArrayHeap.write, List.mergeSort, List.merge, localeCompare, rApple, rZebra]
    rw [hsorted]
    intro hcon
    rw [heapZA, ArrayHeap.mk.injEq] at hcon
    have := List.head_eq_of_cons_eq hcon
    have hrec : rApple = rZebra := List.head_eq_of_cons_eq this
    have : rApple.name = rZebra.name := by rw [hrec]
    simp [rApple, rZebra] at this

/-- C10 witness: at a concrete heap and reference, the call returns the same
reference and leaves the other cell untouched. -/
theorem sortWithPriority_in_place_witness :
    (sortWithPriorityCall ["z"] heapZA 0).2 = 0
    ∧ ((sortWithPriorityCall ["z"] heapZA 0).1).read 1 = heapZA.read 1 := by
  have h := sortWithPriority_in_place ["z"] heapZA 0
  exact ⟨h.1, h.2.2.1 1 (by decide)⟩

end SloWorkflow
